import Mathlib

/-!
Verification model of the jax-js-mcmc HMC sampler.

Parameter trees with a fixed structure are modelled by `K`-valued families
indexed by the flattened element index `ι`: every tree operation in the source
(`tree.map` over same-structure trees, flatten-and-sum reductions) acts
pointwise on, or sums over, those elements, so a function `ι → K` is a faithful
shallow embedding of one tree.  Definitions that use only field arithmetic are
stated over an arbitrary field `K`, so that they compute when instantiated at
`ℚ`; the claims about the sampler instantiate them at `K = ℝ`.  PRNG draws are
abstracted by passing the drawn standard-normal values as an explicit argument.
-/

namespace JaxJsMcmc

/-! ### Leapfrog, first variant (src/leapfrog.ts, `leapfrog`) -/

namespace Leapfrog1

variable {K : Type*} [LinearOrderedField K] {ι : Type*}

/-- The `updatePosition` helper from src/leapfrog.ts: with a mass tree it
computes `q + (p / m) * eps` elementwise, without one `q + p * eps`. -/
def updatePosition (q p : ι → K) (stepSize : K) : Option (ι → K) → ι → K
  | none => fun i => q i + p i * stepSize
  | some m => fun i => q i + p i / m i * stepSize

/-- The `updateMomentum` helper from src/leapfrog.ts: `p + grad * eps`
elementwise. -/
def updateMomentum (p grad : ι → K) (stepSize : K) : ι → K :=
  fun i => p i + grad i * stepSize

/-- The main loop of `leapfrog` (src/leapfrog.ts lines 82-90), by recursion on
the number of remaining iterations: each iteration advances the position, then
kicks the momentum with a full step, or a half step on the last iteration. -/
def loop (gradLogProb : (ι → K) → ι → K) (stepSize : K) (massMatrix : Option (ι → K)) :
    ℕ → (ι → K) × (ι → K) → (ι → K) × (ι → K)
  | 0, s => s
  | r + 1, s =>
      let q := updatePosition s.1 s.2 stepSize massMatrix
      let g := gradLogProb q
      let c := if r = 0 then stepSize * 0.5 else stepSize
      loop gradLogProb stepSize massMatrix r (q, updateMomentum s.2 g c)

/-- The exported `leapfrog` (src/leapfrog.ts lines 66-93): initial half-step
momentum kick, then `numSteps` loop iterations. -/
def leapfrog (position momentum : ι → K) (gradLogProb : (ι → K) → ι → K)
    (stepSize : K) (numSteps : ℕ) (massMatrix : Option (ι → K)) :
    (ι → K) × (ι → K) :=
  loop gradLogProb stepSize massMatrix numSteps
    (position, updateMomentum momentum (gradLogProb position) (stepSize * 0.5))

end Leapfrog1

/-! ### Tree algebra (src/tree.ts) -/

section TreeAlgebra

variable {K : Type*} [LinearOrderedField K] {ι : Type*}

/-- The `treeAdd` operation from src/tree.ts: elementwise sum. -/
def treeAdd (a b : ι → K) : ι → K := fun i => a i + b i

/-- The `treeMul` operation from src/tree.ts: elementwise product. -/
def treeMul (a b : ι → K) : ι → K := fun i => a i * b i

/-- The `treeScale` operation from src/tree.ts: elementwise product with a
scalar. -/
def treeScale (a : ι → K) (scalar : K) : ι → K := fun i => a i * scalar

/-- The `treeOnesLike` operation from src/tree.ts. -/
def treeOnesLike (_a : ι → K) : ι → K := fun _ => 1

end TreeAlgebra

/-! ### Leapfrog, second variant (src/leapfrog.ts, PyTree version) -/

namespace Leapfrog2

variable {K : Type*} [LinearOrderedField K] {ι : Type*}

/-- The loop body of the PyTree `leapfrog` (src/leapfrog.ts lines 117-124):
drift with `velocity = invMass ⊙ p`, then kick with `-1.0 * stepSize` (or
`-0.5 * stepSize` on the last iteration) times the potential gradient. -/
def loop (gradPotential : (ι → K) → ι → K) (stepSize : K) (invMass : ι → K) :
    ℕ → (ι → K) × (ι → K) → (ι → K) × (ι → K)
  | 0, s => s
  | r + 1, s =>
      let velocity := treeMul invMass s.2
      let q := treeAdd s.1 (treeScale velocity stepSize)
      let g := gradPotential q
      let scale := if r = 0 then -0.5 * stepSize else -1.0 * stepSize
      loop gradPotential stepSize invMass r (q, treeAdd s.2 (treeScale g scale))

/-- The PyTree `leapfrog` (src/leapfrog.ts lines 98-127): guard on
`numSteps <= 0 || stepSize === 0`, default the inverse mass to ones, initial
half kick with `-0.5 * stepSize`, then the main loop. -/
def leapfrog (position momentum : ι → K) (gradPotential : (ι → K) → ι → K)
    (stepSize : K) (numSteps : ℕ) (inverseMassMatrix : Option (ι → K)) :
    (ι → K) × (ι → K) :=
  if numSteps = 0 ∨ stepSize = 0 then (position, momentum)
  else
    let invMass := inverseMassMatrix.getD (treeOnesLike position)
    loop gradPotential stepSize invMass numSteps
      (position, treeAdd momentum (treeScale (gradPotential position) (-0.5 * stepSize)))

end Leapfrog2

namespace Leapfrog1

variable {K : Type*} [LinearOrderedField K] {ι : Type*}

/-- Momentum negation on phase-space states. -/
def negMom (s : (ι → K) × (ι → K)) : (ι → K) × (ι → K) :=
  (s.1, fun i => -(s.2 i))

/-- One Störmer–Verlet step: half kick, drift, half kick. -/
def sv (gradLogProb : (ι → K) → ι → K) (stepSize : K) (massMatrix : Option (ι → K))
    (s : (ι → K) × (ι → K)) : (ι → K) × (ι → K) :=
  let p1 := updateMomentum s.2 (gradLogProb s.1) (stepSize * 0.5)
  let q1 := updatePosition s.1 p1 stepSize massMatrix
  (q1, updateMomentum p1 (gradLogProb q1) (stepSize * 0.5))

end Leapfrog1

/-! ### Reductions over trees -/

section TreeSum

variable {K : Type*} [LinearOrderedField K] {ι : Type*} [Fintype ι]

/-- The `treeSum` reduction from src/tree.ts: sum over all leaves and
elements. -/
def treeSum (a : ι → K) : K := ∑ i, a i

end TreeSum

/-! ### Kinetic energy and Hamiltonian (src/hmc.ts) -/

namespace Hmc

variable {K : Type*} [LinearOrderedField K] {ι : Type*} [Fintype ι]

/-- The `computeKineticEnergy` function from src/hmc.ts (lines 362-386): with a
mass tree it returns `(Σ p·p/m) * 0.5`, without one `(Σ p·p) * 0.5`. -/
def computeKineticEnergy (momentum : ι → K) : Option (ι → K) → K
  | none => (∑ i, momentum i * momentum i) * 0.5
  | some m => (∑ i, momentum i * momentum i / m i) * 0.5

/-- The `hamiltonian` function from src/hmc.ts (lines 343-356):
`U = logProb(q) * (-1)` plus the kinetic energy. -/
def hamiltonian (logProb : (ι → K) → K) (position momentum : ι → K)
    (massMatrix : Option (ι → K)) : K :=
  logProb position * (-1) + computeKineticEnergy momentum massMatrix

/-- The `sampleMomentum` function from src/hmc.ts (lines 313-338), with the
per-leaf standard-normal draws `z` passed explicitly: without a mass tree the
momentum is `z` itself, with one it is `z ⊙ √m`. -/
noncomputable def sampleMomentum (z : ι → ℝ) : Option (ι → ℝ) → ι → ℝ
  | none => z
  | some m => fun i => z i * Real.sqrt (m i)

/-- Mass-matrix finalization in `runSingleChain` (src/hmc.ts lines 286-291):
`m2 / (welfordCount - 1) + 1e-5`. -/
def finalizeMass (m2 : ι → K) (welfordCount : ℕ) : ι → K :=
  fun i => m2 i / ((welfordCount : K) - 1) + 1e-5

/-- The dual-averaging center in `runSingleChain` (src/hmc.ts line 150):
`mu = Math.log(initialStepSize)`. -/
noncomputable def mu (initialStepSize : ℝ) : ℝ := Real.log initialStepSize

/-- The mutable dual-averaging locals of `runSingleChain`. -/
structure WarmupState where
  hSum : ℝ
  logStepSize : ℝ
  logStepSizeAvg : ℝ
  stepSize : ℝ

/-- Initial values of the dual-averaging locals (src/hmc.ts lines 139-150). -/
noncomputable def initWarmupState (initialStepSize : ℝ) : WarmupState :=
  { hSum := 0
    logStepSize := Real.log initialStepSize
    logStepSizeAvg := Real.log initialStepSize
    stepSize := initialStepSize }

/-- One warmup step-size adaptation step (src/hmc.ts lines 224-235), at
1-based warmup iteration `iteration`, observing `acceptProb`:
`hSum += δ - α`, `logStepSize = mu - (√t / γ)·(hSum / (t + t₀))`,
`logStepSizeAvg = t^(-κ)·logStepSize + (1 - t^(-κ))·logStepSizeAvg`, and the
next step size is `exp(logStepSize)` clamped to `[1e-4, 0.5]`. -/
noncomputable def warmupUpdate (mu targetAcceptRate : ℝ) (iteration : ℕ)
    (st : WarmupState) (acceptProb : ℝ) : WarmupState :=
  let hSum := st.hSum + (targetAcceptRate - acceptProb)
  let logStepSize := mu - (Real.sqrt iteration / 0.05) * (hSum / ((iteration : ℝ) + 10))
  let eta := (iteration : ℝ) ^ (-(0.75 : ℝ))
  let logStepSizeAvg := eta * logStepSize + (1 - eta) * st.logStepSizeAvg
  { hSum := hSum
    logStepSize := logStepSize
    logStepSizeAvg := logStepSizeAvg
    stepSize := max 1e-4 (min 0.5 (Real.exp logStepSize)) }

/-- The warmup adaptation loop, threading the 1-based iteration counter over a
list of observed acceptance probabilities. -/
noncomputable def warmupLoop (mu targetAcceptRate : ℝ) :
    ℕ → WarmupState → List ℝ → WarmupState
  | _, st, [] => st
  | t, st, α :: rest => warmupLoop mu targetAcceptRate (t + 1)
      (warmupUpdate mu targetAcceptRate t st α) rest

/-- The frozen post-warmup step size (src/hmc.ts lines 282-284):
`exp(logStepSizeAvg)` clamped to `[1e-4, 0.5]`. -/
noncomputable def frozenStepSize (st : WarmupState) : ℝ :=
  max 1e-4 (min 0.5 (Real.exp st.logStepSizeAvg))

end Hmc

/-! ### part_003 and part_004 kinetic energies -/

namespace Hamiltonian3

variable {K : Type*} [LinearOrderedField K] {ι : Type*} [Fintype ι]

/-- The `kineticEnergy` from src/unnamed/part_003: `(Σ p ⊙ p / m) * 0.5`, the
mass tree dividing. -/
def kineticEnergy (momentum massMatrix : ι → K) : K :=
  treeSum (fun i => momentum i * momentum i / massMatrix i) * 0.5

/-- The `hamiltonian` from src/unnamed/part_003. -/
def hamiltonian (logProb : (ι → K) → K) (position momentum massMatrix : ι → K) : K :=
  logProb position * (-1) + kineticEnergy momentum massMatrix

end Hamiltonian3

namespace Energy4

variable {K : Type*} [LinearOrderedField K] {ι : Type*} [Fintype ι]

/-- The `kineticEnergy` from src/unnamed/part_004:
`0.5 * Σ (p ⊙ p ⊙ M⁻¹)`, the inverse-mass tree multiplying. -/
def kineticEnergy (momentum inverseMassMatrix : ι → K) : K :=
  0.5 * treeSum (treeMul (treeMul momentum momentum) inverseMassMatrix)

end Energy4

/-! ### Step-size and mass-matrix adaptation (src/adaptation.ts) -/

namespace Adaptation

/-- The `DualAverageState` record from src/adaptation.ts. -/
structure DualAverageState where
  logStepSize : ℝ
  logStepSizeAvg : ℝ
  hSum : ℝ
  iteration : ℕ
  mu : ℝ
  gamma : ℝ
  t0 : ℝ
  kappa : ℝ

/-- The `initDualAverage` function from src/adaptation.ts (lines 26-38). -/
noncomputable def initDualAverage (initialStepSize : ℝ) : DualAverageState :=
  { logStepSize := Real.log initialStepSize
    logStepSizeAvg := Real.log initialStepSize
    hSum := 0
    iteration := 0
    mu := Real.log (10 * initialStepSize)
    gamma := 0.05
    t0 := 10
    kappa := 0.75 }

/-- The `updateDualAverage` function from src/adaptation.ts (lines 40-59),
keeping the recursive `h̄` form: `hSum ← (1-η)·hSum + η·(δ-α)` with
`η = 1/(t + t₀)`. -/
noncomputable def updateDualAverage (state : DualAverageState)
    (acceptProb targetAcceptRate : ℝ) : DualAverageState :=
  let iter := state.iteration + 1
  let eta := 1 / ((iter : ℝ) + state.t0)
  let hSum := (1 - eta) * state.hSum + eta * (targetAcceptRate - acceptProb)
  let logStep := state.mu - (Real.sqrt iter / state.gamma) * hSum
  let logStepAvg := (iter : ℝ) ^ (-state.kappa) * logStep +
    (1 - (iter : ℝ) ^ (-state.kappa)) * state.logStepSizeAvg
  { state with
    logStepSize := logStep
    logStepSizeAvg := logStepAvg
    hSum := hSum
    iteration := iter }

/-- The `clampStepSize` function from src/adaptation.ts (lines 61-63):
`min(1, max(1e-4, stepSize))`. -/
noncomputable def clampStepSize (stepSize : ℝ) : ℝ := min 1 (max 1e-4 stepSize)

end Adaptation

section Welford

variable {K : Type*} [LinearOrderedField K] {ι : Type*}

/-- The `MassMatrixState` record from src/adaptation.ts. -/
structure MassMatrixState (ι K : Type*) where
  mean : ι → K
  m2 : ι → K
  count : ℕ

/-- The `initMassMatrixState` function from src/adaptation.ts (lines 71-79):
zero mean, zero m2, zero count. -/
def initMassMatrixState (_params : ι → K) : MassMatrixState ι K :=
  { mean := fun _ => 0, m2 := fun _ => 0, count := 0 }

/-- The `updateMassMatrix` function from src/adaptation.ts (lines 81-108):
one Welford update on a position sample. -/
def updateMassMatrix (state : MassMatrixState ι K) (sample : ι → K) :
    MassMatrixState ι K :=
  let count := state.count + 1
  let delta := fun i => sample i - state.mean i
  let mean := fun i => state.mean i + delta i / (count : K)
  let delta2 := fun i => sample i - mean i
  let m2 := fun i => state.m2 i + delta i * delta2 i
  { mean := mean, m2 := m2, count := count }

/-- The `finalizeMassMatrix` function from src/adaptation.ts (lines 110-122):
the fallback below `count = 2`, otherwise `m2 / (count-1) + 1e-5`. -/
def finalizeMassMatrix (state : MassMatrixState ι K) (fallback : ι → K) : ι → K :=
  if state.count < 2 then fallback
  else fun i => state.m2 i / ((state.count : K) - 1) + 1e-5

end Welford

/-! ### The spec's dual-averaging recurrence

This definition transcribes the update equations of spec §4.E (the natural-
language specification, not the source); claim C8 compares the two source
implementations against it. -/

namespace SpecDualAverage

/-- Dual-averaging state as written in the spec:
`(log_step, log_step_avg, h_bar, t)`. -/
structure State where
  t : ℕ
  hbar : ℝ
  logStep : ℝ
  logStepAvg : ℝ

/-- The spec's update equations with the default hyperparameters γ = 0.05,
t₀ = 10, κ = 0.75:
`t ← t+1`, `h_bar ← (1 - 1/(t+t₀))·h_bar + (1/(t+t₀))·(δ - α_t)`,
`log_step ← μ - (√t/γ)·h_bar`, `w ← t^(-κ)`,
`log_step_avg ← w·log_step + (1-w)·log_step_avg`. -/
noncomputable def update (mu targetAccept : ℝ) (st : State) (α : ℝ) : State :=
  let t := st.t + 1
  let hbar := (1 - 1 / ((t : ℝ) + 10)) * st.hbar + (1 / ((t : ℝ) + 10)) * (targetAccept - α)
  let logStep := mu - (Real.sqrt t / 0.05) * hbar
  let w := (t : ℝ) ^ (-(0.75 : ℝ))
  { t := t
    hbar := hbar
    logStep := logStep
    logStepAvg := w * logStep + (1 - w) * st.logStepAvg }

end SpecDualAverage

/-! ### JavaScript non-finite number semantics (for the divergence claims)

The accept/reject decision of the transition only sees `ΔH` through
`Math.exp`, `Math.min` and `<`, so its behaviour on non-finite values is fully
determined by the IEEE/JS rules modelled here: `NaN` propagates through
arithmetic, `Math.min` returns `NaN` if an argument is `NaN`, and every `<`
comparison against `NaN` is false. -/

namespace JS

/-- A JavaScript number: `NaN`, `±Infinity`, or a finite value (idealized as a
real, since the claims under study concern only non-finiteness, not
rounding). -/
inductive JSNum where
  | nan : JSNum
  | posInf : JSNum
  | negInf : JSNum
  | num : ℝ → JSNum

open JSNum

/-- The `Number.isFinite` predicate. -/
def isFinite : JSNum → Bool
  | num _ => true
  | _ => false

/-- JS subtraction on possibly non-finite values. -/
noncomputable def sub : JSNum → JSNum → JSNum
  | nan, _ => nan
  | posInf, nan => nan
  | posInf, posInf => nan
  | posInf, negInf => posInf
  | posInf, num _ => posInf
  | negInf, nan => nan
  | negInf, negInf => nan
  | negInf, posInf => negInf
  | negInf, num _ => negInf
  | num _, nan => nan
  | num _, posInf => negInf
  | num _, negInf => posInf
  | num x, num y => num (x - y)

/-- JS unary negation. -/
noncomputable def neg : JSNum → JSNum
  | nan => nan
  | posInf => negInf
  | negInf => posInf
  | num x => num (-x)

/-- `Math.exp`: `exp(NaN) = NaN`, `exp(∞) = ∞`, `exp(-∞) = 0`. -/
noncomputable def exp : JSNum → JSNum
  | nan => nan
  | posInf => posInf
  | negInf => num 0
  | num x => num (Real.exp x)

/-- `Math.min`: returns `NaN` if an argument is `NaN`. -/
noncomputable def jsMin : JSNum → JSNum → JSNum
  | nan, _ => nan
  | _, nan => nan
  | negInf, _ => negInf
  | _, negInf => negInf
  | posInf, b => b
  | a, posInf => a
  | num x, num y => if x ≤ y then num x else num y

/-- The `<` comparison: false whenever an operand is `NaN`. -/
noncomputable def lt : JSNum → JSNum → Bool
  | nan, _ => false
  | _, nan => false
  | negInf, negInf => false
  | negInf, _ => true
  | posInf, _ => false
  | num _, posInf => true
  | num _, negInf => false
  | num x, num y => decide (x < y)

/-- The `acceptanceProbability` function from src/metropolis.ts
(src/unnamed/part_000): `0` for non-finite `ΔH` (the first guard covers all
three non-finite cases), `1` for `ΔH ≤ 0`, otherwise `exp(-ΔH)` capped at
`1`. -/
noncomputable def acceptanceProbability : JSNum → JSNum
  | nan => num 0
  | posInf => num 0
  | negInf => num 0
  | num x =>
      if x ≤ 0 then num 1
      else if 1 ≤ Real.exp (-x) then num 1 else num (Real.exp (-x))

/-- The accept/reject decision of `runSingleChain` (src/hmc.ts lines 206-221):
`deltaH = proposedH - currentH`, `acceptProb = min(1, exp(-deltaH))`,
`accepted = u < acceptProb`, and the next position is the proposal exactly when
`accepted`. -/
noncomputable def metropolisNext {α : Type*} (currentParams proposedParams : α)
    (currentH proposedH u : JSNum) : α :=
  let deltaH := sub proposedH currentH
  let acceptProb := jsMin (num 1) (exp (neg deltaH))
  if lt u acceptProb then proposedParams else currentParams

end JS

/-! ### Diagnostics (src/tree-utils.ts, diagnostics section)

The diagnostics use only field arithmetic and comparisons on plain JS numbers,
so they are modelled over `ℚ` and compute. -/

namespace Diagnostics

/-- The `mean` helper from the diagnostics module. -/
def mean (values : List ℚ) : ℚ := values.sum / values.length

/-- The `variance` helper (sample variance with `n-1` denominator), given the
precomputed mean. -/
def variance (values : List ℚ) (meanValue : ℚ) : ℚ :=
  (values.map fun b => (b - meanValue) ^ 2).sum / ((values.length : ℚ) - 1)

/-- The inner sum of the autocorrelation computation of `ess`:
`Σ_{i < n-lag} (x_i - mean)(x_{i+lag} - mean)`. -/
def autocorrSum (chain : List ℚ) (sampleMean : ℚ) (lag : ℕ) : ℚ :=
  ∑ i ∈ Finset.range (chain.length - lag),
    (chain.getD i 0 - sampleMean) * (chain.getD (i + lag) 0 - sampleMean)

/-- The Geyer pair loop of `ess`
(`for (t = 1; t < maxLag - 1; t += 2) { ... }` with early exit on a negative
pair sum), written with explicit fuel; `bound` is `maxLag - 1`. -/
def geyerPairs (rho : ℕ → ℚ) (bound : ℕ) : ℕ → ℕ → ℚ
  | 0, _ => 0
  | fuel + 1, t =>
      if t < bound then
        (if rho t + rho (t + 1) < 0 then 0
          else 2 * (rho t + rho (t + 1)) + geyerPairs rho bound fuel (t + 2))
      else 0

/-- The per-chain body of `ess` (src/tree-utils.ts lines 205-244): chains of
length `< 2` or with near-zero variance contribute their length; otherwise the
chain contributes `max(1, n / essSum)` where `essSum` is `ρ₀` plus the Geyer
pair sums of the chain's own autocorrelations. -/
def chainEss (chain : List ℚ) : ℚ :=
  let n := chain.length
  if n < 2 then (n : ℚ)
  else
    let sampleMean := mean chain
    let sampleVariance := variance chain sampleMean
    if sampleVariance < 1e-10 then (n : ℚ)
    else
      let varianceN := sampleVariance * (((n : ℚ) - 1) / n)
      let maxLag := min (n - 1) (n / 2)
      let rho := fun lag => autocorrSum chain sampleMean lag / ((n : ℚ) * varianceN)
      let essSum := rho 0 + geyerPairs rho (maxLag - 1) maxLag 1
      max 1 ((n : ℚ) / essSum)

/-- The `ess` function from src/tree-utils.ts (lines 204-247): the sum over
chains of the per-chain effective sample sizes. -/
def ess (draws : List (List ℚ)) : ℚ := (draws.map chainEss).sum

/-- Transcribed from the words of claim C6 and spec §4.J, not from the source:
autocorrelations are averaged across chains into `ρ̂_t`, Geyer pair sums give
`τ = 1 + 2·Σ`, and the result is `C·N / τ` clamped to `[1, C·N]`. -/
def essClaimed (draws : List (List ℚ)) : ℚ :=
  let C := draws.length
  let N := (draws.headD []).length
  let chainRho := fun (chain : List ℚ) (lag : ℕ) =>
    let m := mean chain
    let v := variance chain m
    autocorrSum chain m lag / ((N : ℚ) * (v * (((N : ℚ) - 1) / N)))
  let rhoHat := fun lag => (draws.map fun chain => chainRho chain lag).sum / (C : ℚ)
  let maxLag := N / 2
  let tau := 1 + geyerPairs rhoHat maxLag (maxLag + 2) 1
  min ((C : ℚ) * N) (max 1 ((C : ℚ) * N / tau))


end Diagnostics

/-! ### Reversibility of the first leapfrog variant

The loop of `Leapfrog1.leapfrog`, preceded by the initial half kick, is the
`numSteps`-fold iterate of one Störmer–Verlet step (half kick, drift, half
kick); each Störmer–Verlet step is inverted by conjugation with momentum
negation, from which time-reversibility of the whole trajectory follows. -/

namespace Leapfrog1

variable {K : Type*} [LinearOrderedField K] {ι : Type*}

lemma loop_halfKick_eq_sv_iterate (grad : (ι → K) → ι → K) (ε : K)
    (mm : Option (ι → K)) :
    ∀ (r : ℕ) (s : (ι → K) × (ι → K)),
      loop grad ε mm (r + 1) (s.1, updateMomentum s.2 (grad s.1) (ε * 0.5)) =
        (sv grad ε mm)^[r + 1] s := by
  have hdouble : ∀ p g : ι → K,
      updateMomentum p g ε = updateMomentum (updateMomentum p g (ε * 0.5)) g (ε * 0.5) := by
    intro p g; funext i; simp only [updateMomentum]; ring
  intro r
  induction r with
  | zero =>
      intro s
      simp only [loop, sv, zero_add, Function.iterate_one, eq_self_iff_true, if_true]
  | succ r ih =>
      intro s
      have h1 : loop grad ε mm (r + 1 + 1)
          (s.1, updateMomentum s.2 (grad s.1) (ε * 0.5)) =
          loop grad ε mm (r + 1)
            ((sv grad ε mm s).1,
              updateMomentum (sv grad ε mm s).2 (grad (sv grad ε mm s).1) (ε * 0.5)) := by
        rw [loop]
        simp only [Nat.succ_ne_zero, if_false, sv, ← hdouble]
      rw [h1, ih (sv grad ε mm s), ← Function.iterate_succ_apply]

lemma sv_negMom_sv (grad : (ι → K) → ι → K) (ε : K) (mm : Option (ι → K))
    (s : (ι → K) × (ι → K)) :
    sv grad ε mm (negMom (sv grad ε mm s)) = negMom s := by
  obtain ⟨q, p⟩ := s
  set p1 : ι → K := updateMomentum p (grad q) (ε * 0.5) with hp1
  set q1 : ι → K := updatePosition q p1 ε mm with hq1
  have hsv : sv grad ε mm (q, p) = (q1, updateMomentum p1 (grad q1) (ε * 0.5)) := rfl
  rw [hsv]
  have hkick1 :
      updateMomentum (fun i => -(updateMomentum p1 (grad q1) (ε * 0.5)) i) (grad q1)
        (ε * 0.5) = fun i => -(p1 i) := by
    funext i; simp only [updateMomentum]; ring
  have hdrift : updatePosition q1 (fun i => -(p1 i)) ε mm = q := by
    cases mm with
    | none => funext i; simp only [hq1, updatePosition]; ring
    | some m => funext i; simp only [hq1, updatePosition]; ring
  have hkick2 : updateMomentum (fun i => -(p1 i)) (grad q) (ε * 0.5) = fun i => -(p i) := by
    funext i; simp only [hp1, updateMomentum]; ring
  show (updatePosition q1 _ ε mm, _) = _
  rw [show negMom (q1, updateMomentum p1 (grad q1) (ε * 0.5)) =
      (q1, fun i => -(updateMomentum p1 (grad q1) (ε * 0.5)) i) from rfl]
  simp only [sv, hkick1, hdrift, hkick2]
  rfl

lemma sv_iterate_negMom (grad : (ι → K) → ι → K) (ε : K) (mm : Option (ι → K)) :
    ∀ (n : ℕ) (s : (ι → K) × (ι → K)),
      (sv grad ε mm)^[n] (negMom ((sv grad ε mm)^[n] s)) = negMom s := by
  intro n
  induction n with
  | zero => intro s; simp
  | succ n ih =>
      intro s
      rw [Function.iterate_succ_apply' (sv grad ε mm) n s,
        Function.iterate_succ_apply (sv grad ε mm) n
          (negMom (sv grad ε mm ((sv grad ε mm)^[n] s))),
        sv_negMom_sv, ih]

/-- Time-reversibility of `Leapfrog1.leapfrog`: running the integrator from the
final state with negated momentum returns the initial state with negated
momentum, exactly, for any gradient function and any step count. -/
lemma leapfrog_reversible (grad : (ι → K) → ι → K) (ε : K) (mm : Option (ι → K))
    (L : ℕ) (hL : 1 ≤ L) (q p : ι → K) :
    leapfrog (leapfrog q p grad ε L mm).1
      (fun i => -((leapfrog q p grad ε L mm).2 i)) grad ε L mm =
      (q, fun i => -(p i)) := by
  obtain ⟨r, rfl⟩ : ∃ r, L = r + 1 := ⟨L - 1, (Nat.succ_pred_eq_of_pos hL).symm⟩
  have hlf : ∀ q' p' : ι → K,
      leapfrog q' p' grad ε (r + 1) mm = (sv grad ε mm)^[r + 1] (q', p') := by
    intro q' p'
    exact loop_halfKick_eq_sv_iterate grad ε mm r (q', p')
  rw [hlf q p, hlf]
  have := sv_iterate_negMom grad ε mm (r + 1) (q, p)
  simpa [negMom] using this

end Leapfrog1

/-! ### Agreement of the two leapfrog variants -/

section LeapfrogEquiv

variable {K : Type*} [LinearOrderedField K] {ι : Type*}

lemma loop2_eq_loop1 (gp : (ι → K) → ι → K) (ε : K) (m : ι → K) :
    ∀ (r : ℕ) (s : (ι → K) × (ι → K)),
      Leapfrog2.loop gp ε (fun i => (m i)⁻¹) r s =
        Leapfrog1.loop (fun x i => -(gp x i)) ε (some m) r s := by
  intro r
  induction r with
  | zero => intro s; rfl
  | succ r ih =>
      intro s
      have hq : treeAdd s.1 (treeScale (treeMul (fun i => (m i)⁻¹) s.2) ε) =
          Leapfrog1.updatePosition s.1 s.2 ε (some m) := by
        funext i
        simp only [treeAdd, treeScale, treeMul, Leapfrog1.updatePosition]
        ring
      have hp : ∀ q' : ι → K,
          treeAdd s.2 (treeScale (gp q') (if r = 0 then -0.5 * ε else -1.0 * ε)) =
            Leapfrog1.updateMomentum s.2 (fun i => -(gp q' i))
              (if r = 0 then ε * 0.5 else ε) := by
        intro q'
        funext i
        simp only [treeAdd, treeScale, Leapfrog1.updateMomentum]
        split_ifs <;> ring
      simp only [Leapfrog2.loop, Leapfrog1.loop, hq, hp]
      exact ih _

/-- With `gradPotential = -gradLogProb` and the elementwise reciprocal of the
first variant's mass tree as inverse mass, the PyTree leapfrog computes exactly
the same trajectory as the first variant. -/
lemma leapfrog2_eq_leapfrog1 (gp : (ι → K) → ι → K) (ε : K) (hε : ε ≠ 0)
    (L : ℕ) (hL : 1 ≤ L) (m : ι → K) (q p : ι → K) :
    Leapfrog2.leapfrog q p gp ε L (some fun i => (m i)⁻¹) =
      Leapfrog1.leapfrog q p (fun x i => -(gp x i)) ε L (some m) := by
  have hguard : ¬(L = 0 ∨ ε = 0) := by
    rintro (h | h)
    · omega
    · exact hε h
  rw [Leapfrog2.leapfrog, if_neg hguard]
  have hkick : treeAdd p (treeScale (gp q) (-0.5 * ε)) =
      Leapfrog1.updateMomentum p (fun i => -(gp q i)) (ε * 0.5) := by
    funext i
    simp only [treeAdd, treeScale, Leapfrog1.updateMomentum]
    ring
  simp only [Option.getD, hkick]
  exact loop2_eq_loop1 gp ε m L _

end LeapfrogEquiv

/-! ### ESS lemmas -/

namespace Diagnostics

lemma map_sum_eq_range_sum (f : ℚ → ℚ) :
    ∀ l : List ℚ, (l.map f).sum = ∑ i ∈ Finset.range l.length, f (l.getD i 0) := by
  intro l
  induction l with
  | nil => simp
  | cons a l ih =>
      rw [List.map_cons, List.sum_cons, ih, List.length_cons, Finset.sum_range_succ']
      simp [List.getD, add_comm]

lemma geyerPairs_nonneg (rho : ℕ → ℚ) (bound : ℕ) :
    ∀ (fuel t : ℕ), 0 ≤ geyerPairs rho bound fuel t := by
  intro fuel
  induction fuel with
  | zero => intro t; simp [geyerPairs]
  | succ fuel ih =>
      intro t
      rw [geyerPairs]
      split_ifs with h1 h2
      · exact le_refl 0
      · have hpair : 0 ≤ rho t + rho (t + 1) := le_of_not_lt h2
        have := ih (t + 2)
        nlinarith
      · exact le_refl 0

/-- Each per-chain effective sample size is at most the chain length. -/
lemma chainEss_le_length (chain : List ℚ) : chainEss chain ≤ (chain.length : ℚ) := by
  simp only [chainEss]
  split_ifs with h1 h2
  · exact le_refl _
  · exact le_refl _
  · have hn2 : 2 ≤ chain.length := le_of_not_lt h1
    have hnq : (2 : ℚ) ≤ (chain.length : ℚ) := by exact_mod_cast hn2
    have hvar : (1e-10 : ℚ) ≤ variance chain (mean chain) := le_of_not_lt h2
    have hvarpos : 0 < variance chain (mean chain) := lt_of_lt_of_le (by norm_num) hvar
    have hne1 : ((chain.length : ℚ) - 1) ≠ 0 := by intro hc; nlinarith
    have hne2 : (chain.length : ℚ) ≠ 0 := by intro hc; nlinarith
    have hrho0 : autocorrSum chain (mean chain) 0 /
        ((chain.length : ℚ) *
          (variance chain (mean chain) * (((chain.length : ℚ) - 1) / chain.length))) = 1 := by
      have h0 : autocorrSum chain (mean chain) 0 =
          (chain.map fun b => (b - mean chain) ^ 2).sum := by
        rw [autocorrSum, map_sum_eq_range_sum]
        simp [pow_two]
      have hsum : autocorrSum chain (mean chain) 0 =
          variance chain (mean chain) * ((chain.length : ℚ) - 1) := by
        rw [h0, variance]
        field_simp
      rw [hsum]
      field_simp
    rw [hrho0]
    generalize hG : geyerPairs _ _ _ _ = G
    have hg : (0 : ℚ) ≤ G := hG ▸ geyerPairs_nonneg _ _ _ _
    refine max_le (by linarith) ?_
    exact div_le_self (by positivity) (by linarith)

/-- The total effective sample size is at most (number of chains) · N when all
chains have length `N`. -/
lemma ess_le_total (draws : List (List ℚ)) (N : ℕ)
    (hlen : ∀ c ∈ draws, c.length = N) :
    ess draws ≤ (draws.length : ℚ) * N := by
  rw [ess]
  induction draws with
  | nil => simp
  | cons c rest ih =>
      have hc : chainEss c ≤ (N : ℚ) := by
        have := chainEss_le_length c
        rwa [hlen c (List.mem_cons_self c rest)] at this
      have hrest := ih fun x hx => hlen x (List.mem_cons_of_mem c hx)
      rw [List.map_cons, List.sum_cons, List.length_cons]
      push_cast
      linarith

end Diagnostics

/-! ### Welford invariants -/

section WelfordLemmas

variable {K : Type*} [LinearOrderedField K] {ι : Type*}

lemma updateMassMatrix_count (st : MassMatrixState ι K) (x : ι → K) :
    (updateMassMatrix st x).count = st.count + 1 := rfl

lemma updateMassMatrix_m2_nonneg (st : MassMatrixState ι K) (x : ι → K)
    (h : ∀ i, 0 ≤ st.m2 i) : ∀ i, 0 ≤ (updateMassMatrix st x).m2 i := by
  intro i
  show 0 ≤ st.m2 i + (x i - st.mean i) *
    (x i - (st.mean i + (x i - st.mean i) / ((st.count + 1 : ℕ) : K)))
  have hc0 : (0 : K) < ((st.count + 1 : ℕ) : K) := by
    exact_mod_cast Nat.succ_pos st.count
  have hc1 : (1 : K) ≤ ((st.count + 1 : ℕ) : K) := by
    exact_mod_cast Nat.succ_le_succ (Nat.zero_le st.count)
  have key : (x i - st.mean i) *
      (x i - (st.mean i + (x i - st.mean i) / ((st.count + 1 : ℕ) : K))) =
      (x i - st.mean i) ^ 2 * (((st.count + 1 : ℕ) : K) - 1) / ((st.count + 1 : ℕ) : K) := by
    field_simp
    ring
  have hterm : 0 ≤ (x i - st.mean i) *
      (x i - (st.mean i + (x i - st.mean i) / ((st.count + 1 : ℕ) : K))) := by
    rw [key]
    exact div_nonneg (mul_nonneg (sq_nonneg _) (by linarith)) (le_of_lt hc0)
  linarith [h i]

lemma welford_foldl_invariant (samples : List (ι → K)) :
    ∀ st : MassMatrixState ι K, (∀ i, 0 ≤ st.m2 i) →
      (samples.foldl updateMassMatrix st).count = st.count + samples.length ∧
        ∀ i, 0 ≤ (samples.foldl updateMassMatrix st).m2 i := by
  induction samples with
  | nil => intro st h; exact ⟨by simp, by simpa using h⟩
  | cons x rest ih =>
      intro st h
      have hnext := ih (updateMassMatrix st x) (updateMassMatrix_m2_nonneg st x h)
      refine ⟨?_, by simpa using hnext.2⟩
      rw [List.foldl_cons, hnext.1, updateMassMatrix_count, List.length_cons]
      omega

end WelfordLemmas

/-! ### Agreement of the dual-averaging implementations -/

section DualAverageLemmas

lemma dualAverage_agree (μ δ : ℝ) :
    ∀ (αs : List ℝ) (t : ℕ) (A : Adaptation.DualAverageState) (B : Hmc.WarmupState)
      (S : SpecDualAverage.State),
      A.mu = μ → A.gamma = 0.05 → A.t0 = 10 → A.kappa = 0.75 →
      A.iteration = t → S.t = t →
      A.hSum = B.hSum / ((t : ℝ) + 10) → S.hbar = A.hSum →
      A.logStepSize = B.logStepSize → A.logStepSizeAvg = B.logStepSizeAvg →
      S.logStep = B.logStepSize → S.logStepAvg = B.logStepSizeAvg →
      ((αs.foldl (fun st α => Adaptation.updateDualAverage st α δ) A).logStepSize =
          (Hmc.warmupLoop μ δ (t + 1) B αs).logStepSize ∧
        (αs.foldl (fun st α => Adaptation.updateDualAverage st α δ) A).logStepSizeAvg =
          (Hmc.warmupLoop μ δ (t + 1) B αs).logStepSizeAvg ∧
        (αs.foldl (SpecDualAverage.update μ δ) S).logStep =
          (Hmc.warmupLoop μ δ (t + 1) B αs).logStepSize ∧
        (αs.foldl (SpecDualAverage.update μ δ) S).logStepAvg =
          (Hmc.warmupLoop μ δ (t + 1) B αs).logStepSizeAvg) := by
  intro αs
  induction αs with
  | nil =>
      intro t A B S hmu hg ht0 hk hit hst hhsum hhbar hls hlsa hsls hslsa
      exact ⟨hls, hlsa, hsls, hslsa⟩
  | cons α rest ih =>
      intro t A B S hmu hg ht0 hk hit hst hhsum hhbar hls hlsa hsls hslsa
      have htpos : (0 : ℝ) < (t : ℝ) + 10 := by positivity
      have htpos1 : (0 : ℝ) < ((t + 1 : ℕ) : ℝ) + 10 := by positivity
      have hcast : ((t + 1 : ℕ) : ℝ) = (t : ℝ) + 1 := by push_cast; ring
      have hhsum' : (Adaptation.updateDualAverage A α δ).hSum =
          (Hmc.warmupUpdate μ δ (t + 1) B α).hSum / (((t + 1 : ℕ) : ℝ) + 10) := by
        show (1 - 1 / (((A.iteration + 1 : ℕ) : ℝ) + A.t0)) * A.hSum +
            1 / (((A.iteration + 1 : ℕ) : ℝ) + A.t0) * (δ - α) =
            (B.hSum + (δ - α)) / (((t + 1 : ℕ) : ℝ) + 10)
        rw [hit, ht0, hhsum, hcast]
        field_simp
        ring
      have hls' : (Adaptation.updateDualAverage A α δ).logStepSize =
          (Hmc.warmupUpdate μ δ (t + 1) B α).logStepSize := by
        show A.mu - Real.sqrt ((A.iteration + 1 : ℕ)) / A.gamma *
            (Adaptation.updateDualAverage A α δ).hSum =
            μ - Real.sqrt (((t + 1 : ℕ) : ℝ)) / 0.05 *
              ((Hmc.warmupUpdate μ δ (t + 1) B α).hSum / (((t + 1 : ℕ) : ℝ) + 10))
        rw [hmu, hg, hit, ← hhsum']
      have hlsa' : (Adaptation.updateDualAverage A α δ).logStepSizeAvg =
          (Hmc.warmupUpdate μ δ (t + 1) B α).logStepSizeAvg := by
        show ((A.iteration + 1 : ℕ) : ℝ) ^ (-A.kappa) *
            (Adaptation.updateDualAverage A α δ).logStepSize +
            (1 - ((A.iteration + 1 : ℕ) : ℝ) ^ (-A.kappa)) * A.logStepSizeAvg =
            ((t + 1 : ℕ) : ℝ) ^ (-(0.75 : ℝ)) * (Hmc.warmupUpdate μ δ (t + 1) B α).logStepSize +
            (1 - ((t + 1 : ℕ) : ℝ) ^ (-(0.75 : ℝ))) * B.logStepSizeAvg
        rw [hk, hit, hls', hlsa]
      have hshbar' : (SpecDualAverage.update μ δ S α).hbar =
          (Adaptation.updateDualAverage A α δ).hSum := by
        show (1 - 1 / (((S.t + 1 : ℕ) : ℝ) + 10)) * S.hbar +
            1 / (((S.t + 1 : ℕ) : ℝ) + 10) * (δ - α) =
            (1 - 1 / (((A.iteration + 1 : ℕ) : ℝ) + A.t0)) * A.hSum +
            1 / (((A.iteration + 1 : ℕ) : ℝ) + A.t0) * (δ - α)
        rw [hst, hit, ht0, hhbar]
      have hsls' : (SpecDualAverage.update μ δ S α).logStep =
          (Adaptation.updateDualAverage A α δ).logStepSize := by
        show μ - Real.sqrt ((S.t + 1 : ℕ)) / 0.05 * (SpecDualAverage.update μ δ S α).hbar =
            A.mu - Real.sqrt ((A.iteration + 1 : ℕ)) / A.gamma *
              (Adaptation.updateDualAverage A α δ).hSum
        rw [hshbar', hst, hit, hmu, hg]
      have hslsa' : (SpecDualAverage.update μ δ S α).logStepAvg =
          (Adaptation.updateDualAverage A α δ).logStepSizeAvg := by
        show ((S.t + 1 : ℕ) : ℝ) ^ (-(0.75 : ℝ)) * (SpecDualAverage.update μ δ S α).logStep +
            (1 - ((S.t + 1 : ℕ) : ℝ) ^ (-(0.75 : ℝ))) * S.logStepAvg =
            ((A.iteration + 1 : ℕ) : ℝ) ^ (-A.kappa) *
              (Adaptation.updateDualAverage A α δ).logStepSize +
            (1 - ((A.iteration + 1 : ℕ) : ℝ) ^ (-A.kappa)) * A.logStepSizeAvg
        rw [hsls', hst, hit, hk, hslsa, hlsa]
      have := ih (t + 1) (Adaptation.updateDualAverage A α δ)
        (Hmc.warmupUpdate μ δ (t + 1) B α) (SpecDualAverage.update μ δ S α)
        hmu hg ht0 hk (by simp [Adaptation.updateDualAverage, hit])
        (by simp [SpecDualAverage.update, hst]) hhsum'
        (hshbar'.trans rfl) hls' hlsa'
        (hsls'.trans hls') (hslsa'.trans hlsa')
      simpa [Hmc.warmupLoop] using this

lemma warmupLoop_const_target (ε₀ δ : ℝ) :
    ∀ (n t : ℕ) (st : Hmc.WarmupState), st.hSum = 0 →
      st.logStepSize = Real.log ε₀ → st.logStepSizeAvg = Real.log ε₀ →
      ((Hmc.warmupLoop (Real.log ε₀) δ t st (List.replicate n δ)).hSum = 0 ∧
        (Hmc.warmupLoop (Real.log ε₀) δ t st (List.replicate n δ)).logStepSize =
          Real.log ε₀ ∧
        (Hmc.warmupLoop (Real.log ε₀) δ t st (List.replicate n δ)).logStepSizeAvg =
          Real.log ε₀) := by
  intro n
  induction n with
  | zero => intro t st h1 h2 h3; exact ⟨h1, h2, h3⟩
  | succ n ih =>
      intro t st h1 h2 h3
      rw [List.replicate_succ]
      show (Hmc.warmupLoop (Real.log ε₀) δ (t + 1)
          (Hmc.warmupUpdate (Real.log ε₀) δ t st δ) (List.replicate n δ)).hSum = 0 ∧ _ ∧ _
      have hs : (Hmc.warmupUpdate (Real.log ε₀) δ t st δ).hSum = 0 := by
        show st.hSum + (δ - δ) = 0
        rw [h1]; ring
      have hl : (Hmc.warmupUpdate (Real.log ε₀) δ t st δ).logStepSize = Real.log ε₀ := by
        show Real.log ε₀ - Real.sqrt t / 0.05 *
          ((Hmc.warmupUpdate (Real.log ε₀) δ t st δ).hSum / ((t : ℝ) + 10)) = Real.log ε₀
        rw [hs]
        simp
      have ha : (Hmc.warmupUpdate (Real.log ε₀) δ t st δ).logStepSizeAvg = Real.log ε₀ := by
        show (t : ℝ) ^ (-(0.75 : ℝ)) *
            (Hmc.warmupUpdate (Real.log ε₀) δ t st δ).logStepSize +
            (1 - (t : ℝ) ^ (-(0.75 : ℝ))) * st.logStepSizeAvg = Real.log ε₀
        rw [hl, h3]
        ring
      exact ih (t + 1) _ hs hl ha

end DualAverageLemmas

/-! ## Claims -/

/-- C3: the leapfrog integrator is time-reversible under momentum negation:
for every `(q, p)`, every step size `ε > 0`, every `L ≥ 1`, and every strictly
positive mass tree, if `(q', p') = Leapfrog(q, p, ε, L, M)` then
`Leapfrog(q', -p', ε, L, M) = (q, -p)` exactly over real arithmetic, for both
exported leapfrog variants. -/
theorem C3_leapfrog_reversibility :
    (∀ (ι : Type) (grad : (ι → ℝ) → ι → ℝ) (ε : ℝ) (L : ℕ) (m : ι → ℝ)
        (q p q' p' : ι → ℝ), 0 < ε → 1 ≤ L → (∀ i, 0 < m i) →
        Leapfrog1.leapfrog q p grad ε L (some m) = (q', p') →
        Leapfrog1.leapfrog q' (fun i => -(p' i)) grad ε L (some m) =
          (q, fun i => -(p i))) ∧
    (∀ (ι : Type) (gp : (ι → ℝ) → ι → ℝ) (ε : ℝ) (L : ℕ) (w : ι → ℝ)
        (q p q' p' : ι → ℝ), 0 < ε → 1 ≤ L → (∀ i, 0 < w i) →
        Leapfrog2.leapfrog q p gp ε L (some w) = (q', p') →
        Leapfrog2.leapfrog q' (fun i => -(p' i)) gp ε L (some w) =
          (q, fun i => -(p i))) := by
  constructor
  · intro ι grad ε L m q p q' p' _ hL _ h
    have hrev := Leapfrog1.leapfrog_reversible grad ε (some m) L hL q p
    rw [h] at hrev
    exact hrev
  · intro ι gp ε L w q p q' p' hε hL _ h
    have hinv : ∀ a b : ι → ℝ,
        Leapfrog2.leapfrog a b gp ε L (some w) =
          Leapfrog1.leapfrog a b (fun x i => -(gp x i)) ε L (some fun i => (w i)⁻¹) := by
      intro a b
      have h2 := leapfrog2_eq_leapfrog1 gp ε (ne_of_gt hε) L hL (fun i => (w i)⁻¹) a b
      simpa [inv_inv] using h2
    rw [hinv q p] at h
    have hrev := Leapfrog1.leapfrog_reversible (fun x i => -(gp x i)) ε
      (some fun i => (w i)⁻¹) L hL q p
    rw [h] at hrev
    rw [hinv q' (fun i => -(p' i))]
    exact hrev

/-- Witness for C3 at a concrete input: `ι = Fin 1`, zero gradient, unit mass,
`ε = 1`, `L = 1`, `q = p = 0`; the leapfrog map fixes `(0, 0)`, and both
variants return to the start after momentum negation. -/
theorem C3_witness :
    Leapfrog1.leapfrog (fun _ : Fin 1 => (0 : ℝ)) (fun i => -((fun _ : Fin 1 => (0 : ℝ)) i))
        (fun _ _ => 0) 1 1 (some fun _ => 1) =
      ((fun _ : Fin 1 => (0 : ℝ)), fun i => -((fun _ : Fin 1 => (0 : ℝ)) i)) ∧
    Leapfrog2.leapfrog (fun _ : Fin 1 => (0 : ℝ)) (fun i => -((fun _ : Fin 1 => (0 : ℝ)) i))
        (fun _ _ => 0) 1 1 (some fun _ => 1) =
      ((fun _ : Fin 1 => (0 : ℝ)), fun i => -((fun _ : Fin 1 => (0 : ℝ)) i)) := by
  have h1 : Leapfrog1.leapfrog (fun _ : Fin 1 => (0 : ℝ)) (fun _ => 0)
      (fun _ _ => 0) 1 1 (some fun _ => 1) = ((fun _ => 0), fun _ => 0) := by
    refine Prod.ext ?_ ?_ <;> funext i <;>
      simp [Leapfrog1.leapfrog, Leapfrog1.loop, Leapfrog1.updatePosition,
        Leapfrog1.updateMomentum]
  have h2 : Leapfrog2.leapfrog (fun _ : Fin 1 => (0 : ℝ)) (fun _ => 0)
      (fun _ _ => 0) 1 1 (some fun _ => 1) = ((fun _ => 0), fun _ => 0) := by
    refine Prod.ext ?_ ?_ <;> funext i <;>
      simp [Leapfrog2.leapfrog, Leapfrog2.loop, treeAdd, treeMul, treeScale]
  exact ⟨C3_leapfrog_reversibility.1 (Fin 1) (fun _ _ => 0) 1 1 (fun _ => 1)
      (fun _ => 0) (fun _ => 0) (fun _ => 0) (fun _ => 0)
      one_pos (le_refl 1) (fun _ => one_pos) h1,
    C3_leapfrog_reversibility.2 (Fin 1) (fun _ _ => 0) 1 1 (fun _ => 1)
      (fun _ => 0) (fun _ => 0) (fun _ => 0) (fun _ => 0)
      one_pos (le_refl 1) (fun _ => one_pos) h2⟩

/-- C10: the two exported leapfrog implementations compute the same map: the
PyTree variant called with `gradPotential = -gradLogProb` and the elementwise
reciprocal of the first variant's mass tree returns exactly the first
variant's `(q_L, p_L)`, for every `ε > 0`, `L ≥ 1` and strictly positive mass
tree, over real arithmetic. -/
theorem C10_leapfrog_variants_agree (ι : Type) (grad : (ι → ℝ) → ι → ℝ) (ε : ℝ)
    (L : ℕ) (m : ι → ℝ) (q p : ι → ℝ) (hε : 0 < ε) (hL : 1 ≤ L)
    (_hm : ∀ i, 0 < m i) :
    Leapfrog2.leapfrog q p (fun x i => -(grad x i)) ε L (some fun i => (m i)⁻¹) =
      Leapfrog1.leapfrog q p grad ε L (some m) := by
  have h := leapfrog2_eq_leapfrog1 (fun x i => -(grad x i)) ε (ne_of_gt hε) L hL m q p
  simpa using h

/-- Witness for C10 at a concrete input: `ι = Fin 1`, zero gradient, unit
mass, `ε = 1`, `L = 1`, `q = p = 0`. -/
theorem C10_witness :
    Leapfrog2.leapfrog (fun _ : Fin 1 => (0 : ℝ)) (fun _ => 0)
        (fun x i => -((fun _ _ => (0 : ℝ)) x i)) 1 1 (some fun _ => ((1 : ℝ))⁻¹) =
      Leapfrog1.leapfrog (fun _ : Fin 1 => (0 : ℝ)) (fun _ => 0)
        (fun _ _ => 0) 1 1 (some fun _ => 1) :=
  C10_leapfrog_variants_agree (Fin 1) (fun _ _ => 0) 1 1 (fun _ => 1)
    (fun _ => 0) (fun _ => 0) one_pos (le_refl 1) (fun _ => one_pos)

/-- C2 (amended): the Hamiltonian computed by the sampler equals
`-logProb(q) + 0.5 · Σ (p ⊙ p ⊙ w)` where `w` is the elementwise *reciprocal*
of the tree the sampler carries (the code divides the squared momentum by that
tree, treating it as the mass `M`, not as `M⁻¹`); without a mass tree the
kinetic term is `0.5 · Σ p²`; and it coincides with the part_003
`hamiltonian`, which also divides. -/
theorem C2_hamiltonian (ι : Type) [Fintype ι] (logProb : (ι → ℝ) → ℝ)
    (q p m : ι → ℝ) :
    Hmc.hamiltonian logProb q p (some m) =
      -(logProb q) + Energy4.kineticEnergy p (fun i => (m i)⁻¹) ∧
    Hmc.hamiltonian logProb q p none = -(logProb q) + 0.5 * ∑ i, p i * p i ∧
    Hmc.hamiltonian logProb q p (some m) = Hamiltonian3.hamiltonian logProb q p m := by
  refine ⟨?_, ?_, rfl⟩
  · have hsum : (∑ i, p i * p i / m i) = ∑ i, p i * p i * (m i)⁻¹ :=
      Finset.sum_congr rfl fun i _ => div_eq_mul_inv _ _
    simp only [Hmc.hamiltonian, Hmc.computeKineticEnergy, Energy4.kineticEnergy,
      treeSum, treeMul, hsum]
    ring
  · simp only [Hmc.hamiltonian, Hmc.computeKineticEnergy]
    ring

/-- C2 counterexample: at `logProb = 0`, `q = p = 1` (one element) and the
finalized tree `8/(2-1) + 1e-5`, the sampler's Hamiltonian is
`0.5/(8 + 1e-5)`, not the claimed `0.5 · Σ (p ⊙ p ⊙ M⁻¹)` with `M⁻¹` read as
that finalized tree, which would be `0.5 · (8 + 1e-5)`. -/
theorem C2_counterexample :
    Hmc.hamiltonian (fun _ : Fin 1 → ℝ => (0 : ℝ)) (fun _ => 1) (fun _ => 1)
        (some (Hmc.finalizeMass (fun _ => 8) 2)) ≠
      -(0 : ℝ) + 0.5 * ∑ i : Fin 1, (1 : ℝ) * 1 * Hmc.finalizeMass (fun _ : Fin 1 => (8 : ℝ)) 2 i := by
  norm_num [Hmc.hamiltonian, Hmc.computeKineticEnergy, Hmc.finalizeMass,
    Fin.sum_univ_one]

/-- C1 (amended): with an adapted mass matrix, `sampleMomentum` scales each
standard-normal draw by the elementwise square root of the finalized tree
itself — `p = z ⊙ √(m2/(count-1) + 1e-5)` for every finalized state with
`count ≥ 2` — i.e. the finalized tree plays the role of the mass `M`
(momentum covariance), not of `M⁻¹`; without a mass matrix the momentum is the
standard-normal draw itself. -/
theorem C1_momentum_scaling (ι : Type) (z : ι → ℝ) (st : MassMatrixState ι ℝ)
    (fb : ι → ℝ) (h2 : 2 ≤ st.count) :
    Hmc.sampleMomentum z (some (finalizeMassMatrix st fb)) =
      (fun i => z i * Real.sqrt (st.m2 i / ((st.count : ℝ) - 1) + 1e-5)) ∧
    Hmc.sampleMomentum z none = z := by
  constructor
  · funext i
    simp only [Hmc.sampleMomentum, finalizeMassMatrix, if_neg (not_lt.mpr h2)]
  · rfl

/-- Witness for C1 at a concrete input: the Welford state reached from the
initial state by the samples `0` and `4` has `count = 2` and `m2 = 8`. -/
theorem C1_witness :
    Hmc.sampleMomentum (fun _ : Fin 1 => (1 : ℝ))
        (some (finalizeMassMatrix
          (updateMassMatrix (updateMassMatrix
            (initMassMatrixState fun _ : Fin 1 => (0 : ℝ)) fun _ => 0) fun _ => 4)
          fun _ => 1)) =
      (fun i => (1 : ℝ) * Real.sqrt
        ((updateMassMatrix (updateMassMatrix
            (initMassMatrixState fun _ : Fin 1 => (0 : ℝ)) fun _ => 0) fun _ => 4).m2 i /
          (((updateMassMatrix (updateMassMatrix
            (initMassMatrixState fun _ : Fin 1 => (0 : ℝ)) fun _ => 0) fun _ => 4).count : ℝ)
            - 1) + 1e-5)) ∧
    Hmc.sampleMomentum (fun _ : Fin 1 => (1 : ℝ)) none = fun _ => 1 :=
  C1_momentum_scaling (Fin 1) (fun _ => 1)
    (updateMassMatrix (updateMassMatrix
      (initMassMatrixState fun _ : Fin 1 => (0 : ℝ)) fun _ => 0) fun _ => 4)
    (fun _ => 1)
    (by rw [updateMassMatrix_count, updateMassMatrix_count]
        norm_num [initMassMatrixState])

/-- C1 counterexample: for the finalized tree reached from the samples `0` and
`4` (value `8 + 1e-5`), the sampler scales `z` by `√(8 + 1e-5)`, not by the
square root of the reciprocal `√(1/(8 + 1e-5))` as the claim states. -/
theorem C1_counterexample :
    Hmc.sampleMomentum (fun _ : Fin 1 => (1 : ℝ))
        (some (finalizeMassMatrix
          (updateMassMatrix (updateMassMatrix
            (initMassMatrixState fun _ : Fin 1 => (0 : ℝ)) fun _ => 0) fun _ => 4)
          fun _ => 1)) ≠
      fun i => (1 : ℝ) * Real.sqrt (1 / finalizeMassMatrix
          (updateMassMatrix (updateMassMatrix
            (initMassMatrixState fun _ : Fin 1 => (0 : ℝ)) fun _ => 0) fun _ => 4)
          (fun _ => 1) i) := by
  intro h
  have h0 := congrFun h 0
  have hm : finalizeMassMatrix
      (updateMassMatrix (updateMassMatrix
        (initMassMatrixState fun _ : Fin 1 => (0 : ℝ)) fun _ => 0) fun _ => 4)
      (fun _ => 1) 0 = 8 + 1e-5 := by
    norm_num [finalizeMassMatrix, updateMassMatrix, initMassMatrixState]
  simp only [Hmc.sampleMomentum, hm, one_mul] at h0
  have hlt : Real.sqrt (1 / (8 + 1e-5)) < Real.sqrt (8 + 1e-5) :=
    Real.sqrt_lt_sqrt (by norm_num) (by norm_num)
  rw [h0] at hlt
  exact lt_irrefl _ hlt

/-- C9: the Welford mass state keeps its invariant under every update:
starting from the initial state, after any sequence of `n` samples the count is
`n`, every element of `m2` is nonnegative, and when `count ≥ 2` the finalized
variance `m2/(count-1)` is elementwise nonnegative. -/
theorem C9_welford_invariant (ι : Type) (params : ι → ℝ) (samples : List (ι → ℝ)) :
    (samples.foldl updateMassMatrix (initMassMatrixState params)).count =
      samples.length ∧
    (∀ i, 0 ≤ (samples.foldl updateMassMatrix (initMassMatrixState params)).m2 i) ∧
    (2 ≤ (samples.foldl updateMassMatrix (initMassMatrixState params)).count →
      ∀ i, 0 ≤ (samples.foldl updateMassMatrix (initMassMatrixState params)).m2 i /
        (((samples.foldl updateMassMatrix (initMassMatrixState params)).count : ℝ) - 1)) := by
  have hinv := welford_foldl_invariant samples (initMassMatrixState params)
    (fun i => le_refl 0)
  have hcount : (samples.foldl updateMassMatrix (initMassMatrixState params)).count =
      samples.length := by
    rw [hinv.1]
    simp [initMassMatrixState]
  refine ⟨hcount, hinv.2, fun h2 i => ?_⟩
  have hden : (0 : ℝ) ≤
      (((samples.foldl updateMassMatrix (initMassMatrixState params)).count : ℝ) - 1) := by
    have : (2 : ℝ) ≤
        ((samples.foldl updateMassMatrix (initMassMatrixState params)).count : ℝ) := by
      exact_mod_cast h2
    linarith
  exact div_nonneg (hinv.2 i) hden

/-- Witness for C9 at a concrete input: the samples `0` and `4` on a
one-element tree give `count = 2` and a nonnegative finalized variance. -/
theorem C9_witness :
    0 ≤ (([fun _ => 0, fun _ => 4] : List (Fin 1 → ℝ)).foldl updateMassMatrix
        (initMassMatrixState fun _ => 0)).m2 0 /
      (((([fun _ => 0, fun _ => 4] : List (Fin 1 → ℝ)).foldl updateMassMatrix
        (initMassMatrixState fun _ => 0)).count : ℝ) - 1) :=
  (C9_welford_invariant (Fin 1) (fun _ => 0) [fun _ => 0, fun _ => 4]).2.2
    (by rw [(C9_welford_invariant (Fin 1) (fun _ => 0) [fun _ => 0, fun _ => 4]).1]
        norm_num) 0

/-- C4 (amended): during warmup and at freezing, `runSingleChain` clamps
`exp(log_step)` and `exp(log_step_avg)` to `[1e-4, 0.5]` — not to
`[1e-4, ε_max]` with `ε_max ∈ [1, 100]` — so every step size used for a
transition lies in `[1e-4, 0.5] ⊂ [1e-4, 1]`; the separate `clampStepSize`
of src/adaptation.ts (not used by the chain runner) clamps to `[1e-4, 1]`. -/
theorem C4_stepsize_clamp (μ δ x : ℝ) (t : ℕ) (st : Hmc.WarmupState) (α : ℝ) :
    (Hmc.warmupUpdate μ δ t st α).stepSize =
      max 1e-4 (min 0.5 (Real.exp (Hmc.warmupUpdate μ δ t st α).logStepSize)) ∧
    Hmc.frozenStepSize st = max 1e-4 (min 0.5 (Real.exp st.logStepSizeAvg)) ∧
    1e-4 ≤ (Hmc.warmupUpdate μ δ t st α).stepSize ∧
    (Hmc.warmupUpdate μ δ t st α).stepSize ≤ 0.5 ∧
    1e-4 ≤ Hmc.frozenStepSize st ∧ Hmc.frozenStepSize st ≤ 0.5 ∧
    1e-4 ≤ Adaptation.clampStepSize x ∧ Adaptation.clampStepSize x ≤ 1 := by
  refine ⟨rfl, rfl, le_max_left _ _, max_le (by norm_num) (min_le_left _ _),
    le_max_left _ _, max_le (by norm_num) (min_le_left _ _), ?_, min_le_left _ _⟩
  exact le_min (by norm_num) (le_max_left _ _)

/-- C4 counterexample: after one warmup update with `ε₀ = 1` and `α = δ = 0.8`
the log step size is `0`, the code uses step size
`max(1e-4, min(0.5, exp 0)) = 0.5`, while the claimed
`clamp(exp(log_step), 1e-4, ε_max)` equals `exp 0 = 1` for every
`ε_max ∈ [1, 100]` (here witnessed through `clampStepSize`, whose `ε_max` is
the smallest admissible value `1`). -/
theorem C4_counterexample :
    (Hmc.warmupUpdate (Hmc.mu 1) 0.8 1 (Hmc.initWarmupState 1) 0.8).stepSize = 0.5 ∧
    Adaptation.clampStepSize
      (Real.exp (Hmc.warmupUpdate (Hmc.mu 1) 0.8 1 (Hmc.initWarmupState 1)
        0.8).logStepSize) = 1 ∧
    (0.5 : ℝ) ≠ 1 := by
  have hls : (Hmc.warmupUpdate (Hmc.mu 1) 0.8 1 (Hmc.initWarmupState 1)
      0.8).logStepSize = 0 := by
    show Hmc.mu 1 - Real.sqrt (1 : ℕ) / 0.05 *
      (((Hmc.initWarmupState 1).hSum + (0.8 - 0.8)) / (((1 : ℕ) : ℝ) + 10)) = 0
    simp [Hmc.mu, Hmc.initWarmupState]
  refine ⟨?_, ?_, by norm_num⟩
  · show max 1e-4 (min 0.5 (Real.exp (Hmc.warmupUpdate (Hmc.mu 1) 0.8 1
      (Hmc.initWarmupState 1) 0.8).logStepSize)) = 0.5
    rw [hls, Real.exp_zero]
    norm_num
  · rw [hls, Real.exp_zero]
    show min 1 (max 1e-4 1) = 1
    norm_num

/-- C5 (amended): the dual-averaging center used by `runSingleChain`'s warmup
loop is `μ = log(ε₀)`, not `log(10·ε₀)`: when every observed acceptance equals
the target, `log_step` stays at `log(ε₀)` for any number of warmup iterations.
The unused `initDualAverage` of src/adaptation.ts does set
`mu = log(10·ε₀)`. -/
theorem C5_mu_regression (ε₀ δ : ℝ) (n : ℕ) :
    Hmc.mu ε₀ = Real.log ε₀ ∧
    (Adaptation.initDualAverage ε₀).mu = Real.log (10 * ε₀) ∧
    (Hmc.warmupLoop (Hmc.mu ε₀) δ 1 (Hmc.initWarmupState ε₀)
      (List.replicate n δ)).logStepSize = Real.log ε₀ := by
  refine ⟨rfl, rfl, ?_⟩
  exact (warmupLoop_const_target ε₀ δ n 1 (Hmc.initWarmupState ε₀) rfl rfl rfl).2.1

/-- C5 counterexample: with `ε₀ = 1` and one warmup update at `α = δ = 0.8`,
the value `log_step` regresses to is `Hmc.mu 1 = log 1 = 0`, whereas the
claimed center `log(10 · 1)` is nonzero. -/
theorem C5_counterexample :
    (Hmc.warmupUpdate (Hmc.mu 1) 0.8 1 (Hmc.initWarmupState 1) 0.8).logStepSize = 0 ∧
    Real.log (10 * 1) ≠ 0 := by
  constructor
  · show Hmc.mu 1 - Real.sqrt (1 : ℕ) / 0.05 *
      (((Hmc.initWarmupState 1).hSum + (0.8 - 0.8)) / (((1 : ℕ) : ℝ) + 10)) = 0
    simp [Hmc.mu, Hmc.initWarmupState]
  · rw [show (10 : ℝ) * 1 = 10 by norm_num]
    exact ne_of_gt (Real.log_pos (by norm_num))

/-- C6 (amended): `ess` returns the *sum over chains* of per-chain effective
sample sizes (each `max(1, N/τ_c)` with `τ_c` from that chain's own
autocorrelations, and `N` for degenerate chains), not the pooled
`C·N/τ` of the chain-averaged autocorrelations; the claimed bound
`ess(draws) ≤ C·N` does hold whenever all chains have length `N`. -/
theorem C6_ess_sum_bound (draws : List (List ℚ)) (N : ℕ)
    (hlen : ∀ c ∈ draws, c.length = N) :
    Diagnostics.ess draws = (draws.map Diagnostics.chainEss).sum ∧
    Diagnostics.ess draws ≤ (draws.length : ℚ) * N :=
  ⟨rfl, Diagnostics.ess_le_total draws N hlen⟩

/-- Witness for C6 at a concrete input: two chains of length two. -/
theorem C6_witness :
    Diagnostics.ess [[0, 1], [2, 3]] =
      (([[0, 1], [2, 3]] : List (List ℚ)).map Diagnostics.chainEss).sum ∧
    Diagnostics.ess [[0, 1], [2, 3]] ≤
      (([[0, 1], [2, 3]] : List (List ℚ)).length : ℚ) * 2 :=
  C6_ess_sum_bound [[0, 1], [2, 3]] 2 (by
    intro c hc
    simp only [List.mem_cons, List.not_mem_nil, or_false] at hc
    rcases hc with h | h <;> subst h <;> rfl)

/-- C6 counterexample: on the two chains `[0,1,2,3,4,5]` and `[0,0,0,1,1,1]`
the source `ess` returns `105/37 + 3 = 216/37`, while the claimed
`C·N/τ` of the chain-averaged autocorrelations, clamped to `[1, C·N]`,
is `35/6`; the two disagree. -/
theorem C6_counterexample :
    Diagnostics.ess [[0, 1, 2, 3, 4, 5], [0, 0, 0, 1, 1, 1]] = 216 / 37 ∧
    Diagnostics.essClaimed [[0, 1, 2, 3, 4, 5], [0, 0, 0, 1, 1, 1]] = 35 / 6 ∧
    (216 / 37 : ℚ) ≠ 35 / 6 := by
  refine ⟨?_, ?_, by norm_num⟩
  · norm_num [Diagnostics.ess, Diagnostics.chainEss, Diagnostics.mean,
      Diagnostics.variance, Diagnostics.autocorrSum, Diagnostics.geyerPairs,
      Finset.sum_range_succ, List.getD]
  · norm_num [Diagnostics.essClaimed, Diagnostics.mean, Diagnostics.variance,
      Diagnostics.autocorrSum, Diagnostics.geyerPairs, Finset.sum_range_succ,
      List.getD]

/-- C7: non-finite values are absorbed as rejections and never escape: the
`acceptanceProbability` of src/metropolis.ts returns `0` for every non-finite
`ΔH`, and in `runSingleChain`'s accept/reject decision a `NaN` or `+∞`
proposed Hamiltonian (the outcome of a non-finite gradient propagating through
the trajectory: squares of non-finite momenta make the kinetic term `+∞` or
`NaN`) makes `u < min(1, exp(-ΔH))` false for every uniform draw `u ≥ 0`, so
the position is unchanged — on the first trajectory it remains
`initialParams`.  Both functions are total: no exception is raised. -/
theorem C7_nonfinite_rejection :
    (∀ dh : JS.JSNum, JS.isFinite dh = false →
      JS.acceptanceProbability dh = JS.JSNum.num 0) ∧
    (∀ (α : Type) (initialParams proposedParams : α) (currentH : JS.JSNum) (u : ℝ),
      0 ≤ u →
      ∀ proposedH : JS.JSNum, proposedH = JS.JSNum.nan ∨ proposedH = JS.JSNum.posInf →
      JS.metropolisNext initialParams proposedParams currentH proposedH
        (JS.JSNum.num u) = initialParams) := by
  constructor
  · intro dh hdh
    cases dh with
    | nan => rfl
    | posInf => rfl
    | negInf => rfl
    | num x => simp [JS.isFinite] at hdh
  · intro α cur prop curH u hu propH hprop
    rcases hprop with rfl | rfl
    · simp [JS.metropolisNext, JS.sub, JS.neg, JS.exp, JS.jsMin, JS.lt]
    · cases curH with
      | nan => simp [JS.metropolisNext, JS.sub, JS.neg, JS.exp, JS.jsMin, JS.lt]
      | posInf => simp [JS.metropolisNext, JS.sub, JS.neg, JS.exp, JS.jsMin, JS.lt]
      | negInf =>
          simp only [JS.metropolisNext, JS.sub, JS.neg, JS.exp]
          simp only [show JS.jsMin (JS.JSNum.num 1) (JS.JSNum.num 0) = JS.JSNum.num 0 by
            norm_num [JS.jsMin]]
          simp only [show JS.lt (JS.JSNum.num u) (JS.JSNum.num 0) = false by
            simp only [JS.lt, decide_eq_false_iff_not]; exact not_lt.mpr hu]
          simp
      | num y =>
          simp only [JS.metropolisNext, JS.sub, JS.neg, JS.exp]
          simp only [show JS.jsMin (JS.JSNum.num 1) (JS.JSNum.num 0) = JS.JSNum.num 0 by
            norm_num [JS.jsMin]]
          simp only [show JS.lt (JS.JSNum.num u) (JS.JSNum.num 0) = false by
            simp only [JS.lt, decide_eq_false_iff_not]; exact not_lt.mpr hu]
          simp

/-- Witness for C7 at concrete inputs: `ΔH = NaN` yields acceptance
probability `0`, and with a `NaN` proposed Hamiltonian the chain stays at the
first position (here `0 : ℕ`), for the uniform draw `u = 1/2`. -/
theorem C7_witness :
    JS.acceptanceProbability JS.JSNum.nan = JS.JSNum.num 0 ∧
    JS.metropolisNext (0 : ℕ) 1 (JS.JSNum.num 5) JS.JSNum.nan (JS.JSNum.num (1 / 2)) =
      0 :=
  ⟨C7_nonfinite_rejection.1 JS.JSNum.nan rfl,
    C7_nonfinite_rejection.2 ℕ 0 1 (JS.JSNum.num 5) (1 / 2) (by norm_num)
      JS.JSNum.nan (Or.inl rfl)⟩

/-- C8: the two dual-averaging implementations are equivalent and both satisfy
the spec's recurrence: with the same center `μ`, target `δ`, initial step size
`ε₀`, and the default hyperparameters, after any finite sequence of observed
acceptance probabilities the recursive `h̄` form of src/adaptation.ts, the
cumulative-sum form of src/hmc.ts, and the spec's update equations produce the
same `log_step` and `log_step_avg` (hence the same full sequences, since the
acceptance list is universally quantified, every prefix is covered). -/
theorem C8_dual_averaging_equivalence (μ δ ε₀ : ℝ) (αs : List ℝ) :
    ((αs.foldl (fun st α => Adaptation.updateDualAverage st α δ)
        { Adaptation.initDualAverage ε₀ with mu := μ }).logStepSize =
      (Hmc.warmupLoop μ δ 1 (Hmc.initWarmupState ε₀) αs).logStepSize) ∧
    ((αs.foldl (fun st α => Adaptation.updateDualAverage st α δ)
        { Adaptation.initDualAverage ε₀ with mu := μ }).logStepSizeAvg =
      (Hmc.warmupLoop μ δ 1 (Hmc.initWarmupState ε₀) αs).logStepSizeAvg) ∧
    ((αs.foldl (SpecDualAverage.update μ δ)
        { t := 0, hbar := 0, logStep := Real.log ε₀,
          logStepAvg := Real.log ε₀ }).logStep =
      (Hmc.warmupLoop μ δ 1 (Hmc.initWarmupState ε₀) αs).logStepSize) ∧
    ((αs.foldl (SpecDualAverage.update μ δ)
        { t := 0, hbar := 0, logStep := Real.log ε₀,
          logStepAvg := Real.log ε₀ }).logStepAvg =
      (Hmc.warmupLoop μ δ 1 (Hmc.initWarmupState ε₀) αs).logStepSizeAvg) := by
  have h := dualAverage_agree μ δ αs 0
    { Adaptation.initDualAverage ε₀ with mu := μ }
    (Hmc.initWarmupState ε₀)
    { t := 0, hbar := 0, logStep := Real.log ε₀, logStepAvg := Real.log ε₀ }
    rfl rfl rfl rfl rfl rfl (by norm_num [Adaptation.initDualAverage, Hmc.initWarmupState])
    rfl rfl rfl rfl rfl
  simpa using h

end JaxJsMcmc
